import Mathlib

/-!
Verification of the SilverStream movie-catalog browser
(`src/app/routes/home.tsx`): the data model, the filter predicate, the
derived filter-option sets, the pagination arithmetic, the detail-view
title lookup, and the page-reset transition of the browsing state.
-/

/-- A movie record as loaded from the catalog document. -/
structure Movie where
  title : String
  year : String
  rating : String
  genres : List String
  url : String
  image_url : String
  video_source : String
deriving DecidableEq, Repr

/-- The loaded catalog document, shaped `{ total_movies, movies }`. -/
structure MoviesData where
  total_movies : Nat
  movies : List Movie
deriving DecidableEq, Repr

/-- The four filter dimensions; the empty string means "no constraint". -/
structure FilterCriteria where
  searchTerm : String
  genre : String
  year : String
  rating : String
deriving DecidableEq, Repr

/-- Models JavaScript `hay.includes(needle)` on character lists: does
`needle` occur as a contiguous sublist of `hay`? -/
def containsSub (needle : List Char) : List Char → Bool
  | [] => needle.isEmpty
  | c :: rest => needle.isPrefixOf (c :: rest) || containsSub needle rest

/-- Models `s.includes(pat)` on strings. -/
def strIncludes (s pat : String) : Bool := containsSub pat.data s.data

/-- Models JavaScript `s.toLowerCase()`: lowercase every character. -/
def strLower (s : String) : String := ⟨s.data.map Char.toLower⟩

/-- Pass predicate for one movie against the current criteria, the filter
body of `filteredMovies` (home.tsx lines 110-123). -/
def moviePasses (k : FilterCriteria) (m : Movie) : Bool :=
  let matchesSearch := k.searchTerm == "" ||
    strIncludes (strLower m.title) (strLower k.searchTerm)
  let matchesGenre := k.genre == "" || m.genres.contains k.genre
  let matchesYear := k.year == "" || m.year == k.year
  let matchesRating := k.rating == "" || m.rating == k.rating
  matchesSearch && matchesGenre && matchesYear && matchesRating

/-- Models the `filteredMovies` memo (home.tsx lines 107-125) on a loaded
catalog: keep the records passing every criterion, in catalog order. -/
def applyFilters (d : MoviesData) (k : FilterCriteria) : List Movie :=
  d.movies.filter (moviePasses k)

/-- Accumulates the value of the leading decimal digits of a character
list into `acc`, stopping at the first non-digit. -/
def leadingDigits (acc : Nat) : List Char → Nat
  | [] => acc
  | c :: cs => if c.isDigit then leadingDigits (acc * 10 + (c.toNat - 48)) cs else acc

/-- Models JavaScript `parseInt` in base 10: skip leading whitespace, read
an optional sign and then leading decimal digits; `none` models `NaN`
(no digit found). -/
def jsParseInt (s : String) : Option Int :=
  let cs := s.data.dropWhile Char.isWhitespace
  match cs with
  | [] => none
  | c :: rest =>
    if c = '-' then
      match rest with
      | [] => none
      | d :: _ => if d.isDigit then some (-(leadingDigits 0 rest : Int)) else none
    else if c = '+' then
      match rest with
      | [] => none
      | d :: _ => if d.isDigit then some ((leadingDigits 0 rest : Int)) else none
    else
      if c.isDigit then some ((leadingDigits 0 cs : Int)) else none

/-- Models the JavaScript string comparison `a < b`: strict lexicographic
order on the character sequences. -/
def lexLt : List Char → List Char → Bool
  | [], [] => false
  | [], _ :: _ => true
  | _ :: _, [] => false
  | a :: as, b :: bs => decide (a < b) || (a == b && lexLt as bs)

/-- Boolean order modelling the default comparator of
`Array.from(set).sort()` on strings: `a` may stand before `b` exactly
when `b < a` is false. -/
def lexLe (a b : String) : Bool := !(lexLt b.data a.data)

/-- Boolean order modelling `sort((a, b) => parseInt(b) - parseInt(a))`:
`a` may stand before `b` when the comparator value is non-positive; a
`NaN` comparator value is treated as `0` (the pair compares equal). -/
def yearCompareLe (a b : String) : Bool :=
  match jsParseInt a, jsParseInt b with
  | some x, some y => decide (y ≤ x)
  | _, _ => true

/-- Inserts `x` into a list before the first element it is `le`-below,
the insertion step of the sort model. -/
def jsOrderedInsert (le : String → String → Bool) (x : String) :
    List String → List String
  | [] => [x]
  | y :: ys => if le x y then x :: y :: ys else y :: jsOrderedInsert le x ys

/-- Models `Array.prototype.sort` with comparator-induced order `le` as an
insertion sort: a permutation of the input, sorted whenever the
comparator is consistent on the elements. -/
def jsSort (le : String → String → Bool) : List String → List String
  | [] => []
  | x :: xs => jsOrderedInsert le x (jsSort le xs)

/-- Keeps the first occurrence of every string, in encounter order: the
observable content of the JavaScript `Set` accumulation. -/
def dedupFirst : List String → List String
  | [] => []
  | x :: xs => x :: (dedupFirst xs).filter (fun y => y != x)

/-- The three dropdown option lists. -/
structure FilterOptions where
  genres : List String
  years : List String
  ratings : List String
deriving DecidableEq, Repr

/-- Models the `filterOptions` memo (home.tsx lines 86-104): one pass over
the records accumulating three sets, each then sorted into an array;
genres and ratings by the default lexicographic sort, years by the
numeric-descending comparator. -/
def deriveOptions (d : MoviesData) : FilterOptions :=
  { genres := jsSort lexLe (dedupFirst (d.movies.flatMap Movie.genres))
    years := jsSort yearCompareLe (dedupFirst (d.movies.map Movie.year))
    ratings := jsSort lexLe (dedupFirst (d.movies.map Movie.rating)) }

/-- The page-size constant of home.tsx line 26. -/
def MOVIES_PER_PAGE : Nat := 20

/-- Page count for a list of length `n` at page size `P`, as
`Math.ceil(length / pageSize)` over the naturals. -/
def totalPagesP (P n : Nat) : Nat := (n + (P - 1)) / P

/-- Page slice for 1-based page `page` at page size `P`, as
`list.slice((page - 1) * P, (page - 1) * P + P)`. -/
def pageSliceP (P : Nat) (l : List Movie) (page : Nat) : List Movie :=
  (l.drop ((page - 1) * P)).take P

/-- The `totalPages` computation of home.tsx line 161. -/
def totalPagesOf (l : List Movie) : Nat := totalPagesP MOVIES_PER_PAGE l.length

/-- The `currentMovies` computation of home.tsx lines 162-164. -/
def currentMovies (l : List Movie) (page : Nat) : List Movie :=
  pageSliceP MOVIES_PER_PAGE l page

/-- The data displayed by one render of the Home route. -/
structure HomeView where
  filterOptions : FilterOptions
  filteredMovies : List Movie
  totalPages : Nat
  currentMovies : List Movie
deriving DecidableEq, Repr

/-- One render of the Home route for a loaded catalog: derived options
(from the catalog only), the filtered list and the visible page slice
(home.tsx lines 86-164). -/
def renderHome (d : MoviesData) (k : FilterCriteria) (page : Nat) : HomeView :=
  let fm := applyFilters d k
  { filterOptions := deriveOptions d
    filteredMovies := fm
    totalPages := totalPagesOf fm
    currentMovies := currentMovies fm page }

/-- Detail lookup (home.tsx lines 455-465): the first record whose
lowercased title equals the lowercased decoded title, else the
"Movie not found" error state. -/
def movieLookup (movies : List Movie) (decodedTitle : String) : Except String Movie :=
  match movies.find? (fun m => strLower m.title == strLower decodedTitle) with
  | some m => Except.ok m
  | none => Except.error "Movie not found"

/-- The all-empty criteria, the initial and cleared filter state. -/
def emptyCriteria : FilterCriteria :=
  { searchTerm := "", genre := "", year := "", rating := "" }

/-- The browsing state: current criteria and 1-based page number. -/
structure BrowseState where
  criteria : FilterCriteria
  currentPage : Nat
deriving DecidableEq, Repr

/-- The operations the Home route can perform on its browsing state. -/
inductive HomeEvent where
  | setSearch (v : String)
  | setGenre (v : String)
  | setYear (v : String)
  | setRating (v : String)
  | setPage (p : Nat)
  | clearFilters
deriving DecidableEq, Repr

/-- Browsing transitions: an update that actually changes a filter field
runs the reset effect (home.tsx lines 81-83) and lands on page 1; an
update to the unchanged value is a no-op (React state bailout, the
effect dependencies do not change); page navigation leaves the criteria
alone; `clearFilters` (home.tsx lines 128-134) resets everything. -/
def step (s : BrowseState) : HomeEvent → BrowseState
  | .setSearch v =>
    if v = s.criteria.searchTerm then s
    else { criteria := { s.criteria with searchTerm := v }, currentPage := 1 }
  | .setGenre v =>
    if v = s.criteria.genre then s
    else { criteria := { s.criteria with genre := v }, currentPage := 1 }
  | .setYear v =>
    if v = s.criteria.year then s
    else { criteria := { s.criteria with year := v }, currentPage := 1 }
  | .setRating v =>
    if v = s.criteria.rating then s
    else { criteria := { s.criteria with rating := v }, currentPage := 1 }
  | .setPage p => { s with currentPage := p }
  | .clearFilters => { criteria := emptyCriteria, currentPage := 1 }

/-!  Helper lemmas about the string and sorting models. -/

/-- The substring test agrees with contiguous-sublist containment. -/
theorem containsSub_infix_iff (needle : List Char) :
    ∀ hay : List Char, containsSub needle hay = true ↔ needle <:+: hay := by
  intro hay
  induction hay with
  | nil => simp [containsSub, List.isEmpty_iff]
  | cons c rest ih => simp [containsSub, List.infix_cons_iff, ih]

/-- The Boolean strict comparison agrees with lexicographic order. -/
theorem lexLt_iff_lex : ∀ as bs : List Char, lexLt as bs = true ↔ List.Lex (· < ·) as bs := by
  intro as
  induction as with
  | nil =>
    intro bs
    cases bs with
    | nil => simp [lexLt, List.Lex.not_nil_right]
    | cons b bs =>
      simp only [lexLt]
      exact ⟨fun _ => List.Lex.nil, fun _ => trivial⟩
  | cons a as ih =>
    intro bs
    cases bs with
    | nil => simp [lexLt, List.Lex.not_nil_right]
    | cons b bs =>
      simp only [lexLt, Bool.or_eq_true, Bool.and_eq_true, decide_eq_true_eq, beq_iff_eq, ih]
      constructor
      · rintro (h | ⟨rfl, h⟩)
        · exact List.Lex.rel h
        · exact List.Lex.cons h
      · intro h
        cases h with
        | cons h => exact Or.inr ⟨rfl, h⟩
        | rel h => exact Or.inl h

/-- Failure of the reversed strict comparison means equal or smaller. -/
theorem lexLt_eq_false_iff (a b : String) :
    lexLt b.data a.data = false ↔ (a = b ∨ List.Lex (· < ·) a.data b.data) := by
  constructor
  · intro h
    rcases trichotomous_of (List.Lex (· < ·) : List Char → List Char → Prop) a.data b.data with h1 | h1 | h1
    · exact Or.inr h1
    · exact Or.inl (String.ext h1)
    · rw [← lexLt_iff_lex, h] at h1
      cases h1
  · intro h
    cases hlt : lexLt b.data a.data with
    | false => rfl
    | true =>
      have hba := (lexLt_iff_lex b.data a.data).mp hlt
      rcases h with rfl | h1
      · exact absurd hba (asymm_of (List.Lex (· < ·) : List Char → List Char → Prop) hba)
      · exact absurd hba (asymm_of (List.Lex (· < ·) : List Char → List Char → Prop) h1)

/-- The sort comparator order is: equal strings or lexicographically
below. -/
theorem lexLe_iff (a b : String) :
    lexLe a b = true ↔ (a = b ∨ List.Lex (· < ·) a.data b.data) := by
  rw [lexLe, Bool.not_eq_true']
  exact lexLt_eq_false_iff a b

/-- The comparator order is total. -/
theorem lexLe_total (a b : String) : lexLe a b = true ∨ lexLe b a = true := by
  rcases trichotomous_of (List.Lex (· < ·) : List Char → List Char → Prop) a.data b.data with h | h | h
  · exact Or.inl ((lexLe_iff a b).mpr (Or.inr h))
  · exact Or.inl ((lexLe_iff a b).mpr (Or.inl (String.ext h)))
  · exact Or.inr ((lexLe_iff b a).mpr (Or.inr h))

/-- The comparator order is transitive. -/
theorem lexLe_trans (a b c : String) (h1 : lexLe a b = true) (h2 : lexLe b c = true) :
    lexLe a c = true := by
  rw [lexLe_iff] at h1 h2 ⊢
  rcases h1 with rfl | h1
  · exact h2
  rcases h2 with rfl | h2
  · exact Or.inr h1
  · exact Or.inr (trans_of (List.Lex (· < ·) : List Char → List Char → Prop) h1 h2)

/-- Deduplication does not change membership. -/
theorem mem_dedupFirst {y : String} : ∀ {l : List String}, y ∈ dedupFirst l ↔ y ∈ l := by
  intro l
  induction l with
  | nil => simp [dedupFirst]
  | cons x xs ih =>
    simp only [dedupFirst, List.mem_cons, List.mem_filter, ih, bne_iff_ne, ne_eq]
    constructor
    · rintro (rfl | ⟨h, _⟩)
      · exact Or.inl rfl
      · exact Or.inr h
    · rintro (rfl | h)
      · exact Or.inl rfl
      · by_cases hyx : y = x
        · exact Or.inl hyx
        · exact Or.inr ⟨h, hyx⟩

/-- Deduplication yields a duplicate-free list. -/
theorem nodup_dedupFirst : ∀ l : List String, (dedupFirst l).Nodup := by
  intro l
  induction l with
  | nil => simp [dedupFirst]
  | cons x xs ih =>
    rw [dedupFirst, List.nodup_cons]
    refine ⟨?_, List.Nodup.filter _ ih⟩
    simp [List.mem_filter]

/-- Inserting permutes with pushing the new element on the front. -/
theorem jsOrderedInsert_perm (le : String → String → Bool) (x : String) :
    ∀ l : List String, (jsOrderedInsert le x l).Perm (x :: l) := by
  intro l
  induction l with
  | nil => exact List.Perm.refl _
  | cons y ys ih =>
    simp only [jsOrderedInsert]
    split
    · exact List.Perm.refl _
    · exact (List.Perm.cons y ih).trans (List.Perm.swap x y ys)

/-- The sort model permutes its input. -/
theorem jsSort_perm (le : String → String → Bool) : ∀ l : List String, (jsSort le l).Perm l := by
  intro l
  induction l with
  | nil => exact List.Perm.refl _
  | cons x xs ih => exact (jsOrderedInsert_perm le x (jsSort le xs)).trans (ih.cons x)

/-- Membership after insertion. -/
theorem mem_jsOrderedInsert {le : String → String → Bool} {x y : String} {l : List String} :
    y ∈ jsOrderedInsert le x l ↔ y = x ∨ y ∈ l := by
  have h := (jsOrderedInsert_perm le x l).mem_iff (a := y)
  simpa using h

/-- Membership after sorting. -/
theorem mem_jsSort {le : String → String → Bool} {y : String} {l : List String} :
    y ∈ jsSort le l ↔ y ∈ l :=
  (jsSort_perm le l).mem_iff

/-- Inserting into a sorted list keeps it sorted, for a comparator total
toward the new element and transitive on the elements involved. -/
theorem pairwise_jsOrderedInsert (le : String → String → Bool) (x : String) :
    ∀ l : List String,
      (∀ b ∈ l, le x b = true ∨ le b x = true) →
      (∀ a ∈ x :: l, ∀ b ∈ x :: l, ∀ c ∈ x :: l,
          le a b = true → le b c = true → le a c = true) →
      l.Pairwise (fun a b => le a b = true) →
      (jsOrderedInsert le x l).Pairwise (fun a b => le a b = true) := by
  intro l
  induction l with
  | nil =>
    intro _ _ _
    simp [jsOrderedInsert]
  | cons y ys ih =>
    intro htot htrans hp
    rw [List.pairwise_cons] at hp
    obtain ⟨hy, hys⟩ := hp
    simp only [jsOrderedInsert]
    split
    case isTrue hxy =>
      rw [List.pairwise_cons]
      refine ⟨?_, ?_⟩
      · intro b hb
        rcases List.mem_cons.mp hb with rfl | hb
        · exact hxy
        · exact htrans x (by simp) y (by simp) b (by simp [hb]) hxy (hy b hb)
      · rw [List.pairwise_cons]
        exact ⟨hy, hys⟩
    case isFalse hxy =>
      have hyx : le y x = true := by
        rcases htot y (by simp) with h | h
        · exact absurd h (by simpa using hxy)
        · exact h
      rw [List.pairwise_cons]
      refine ⟨?_, ?_⟩
      · intro b hb
        rcases mem_jsOrderedInsert.mp hb with rfl | hb
        · exact hyx
        · exact hy b hb
      · refine ih ?_ ?_ hys
        · intro b hb
          exact htot b (List.mem_cons_of_mem y hb)
        · intro a ha b hb c hc hab hbc
          have emb : ∀ z : String, z ∈ x :: ys → z ∈ x :: y :: ys := by
            intro z hz
            rcases List.mem_cons.mp hz with rfl | hz
            · exact List.mem_cons_self _ _
            · exact List.mem_cons_of_mem _ (List.mem_cons_of_mem _ hz)
          exact htrans a (emb a ha) b (emb b hb) c (emb c hc) hab hbc

/-- The sort model sorts, for a comparator total and transitive on the
list's elements. -/
theorem pairwise_jsSort (le : String → String → Bool) :
    ∀ l : List String,
      (∀ a ∈ l, ∀ b ∈ l, le a b = true ∨ le b a = true) →
      (∀ a ∈ l, ∀ b ∈ l, ∀ c ∈ l, le a b = true → le b c = true → le a c = true) →
      (jsSort le l).Pairwise (fun a b => le a b = true) := by
  intro l
  induction l with
  | nil =>
    intro _ _
    simp [jsSort]
  | cons x xs ih =>
    intro htot htrans
    simp only [jsSort]
    have hmem : ∀ z ∈ jsSort le xs, z ∈ xs := fun z hz => mem_jsSort.mp hz
    refine pairwise_jsOrderedInsert le x (jsSort le xs) ?_ ?_ ?_
    · intro b hb
      exact htot x (by simp) b (List.mem_cons_of_mem _ (hmem b hb))
    · intro a ha b hb c hc hab hbc
      have emb : ∀ z : String, z ∈ x :: jsSort le xs → z ∈ x :: xs := by
        intro z hz
        rcases List.mem_cons.mp hz with rfl | hz
        · exact List.mem_cons_self _ _
        · exact List.mem_cons_of_mem _ (hmem z hz)
      exact htrans a (emb a ha) b (emb b hb) c (emb c hc) hab hbc
    · refine ih ?_ ?_
      · intro a ha b hb
        exact htot a (List.mem_cons_of_mem _ ha) b (List.mem_cons_of_mem _ hb)
      · intro a ha b hb c hc
        exact htrans a (List.mem_cons_of_mem _ ha) b (List.mem_cons_of_mem _ hb)
          c (List.mem_cons_of_mem _ hc)

/-!  Concrete data for scenario conjuncts and witnesses. -/

/-- Builds a movie record with empty link fields, for concrete scenarios. -/
def mkMovie (t y r : String) (gs : List String) : Movie :=
  { title := t, year := y, rating := r, genres := gs,
    url := "", image_url := "", video_source := "" }

/-- The three-record catalog of the year-filter scenario: titles A, B, C
with years 2000, 2001, 2000. -/
def scenarioCatalog : MoviesData :=
  { total_movies := 3,
    movies := [mkMovie "A" "2000" "PG" ["Drama"],
               mkMovie "B" "2001" "PG" ["Drama"],
               mkMovie "C" "2000" "R" ["Action"]] }

/-- Criteria selecting only the year 2000, all other dimensions empty. -/
def yearCriteria : FilterCriteria :=
  { searchTerm := "", genre := "", year := "2000", rating := "" }

/-!  The claims. -/

/-- C1: `applyFilters` keeps exactly the records for which all four
conditions hold: the search term is empty or a case-insensitive substring
of the title; the genre is empty or a member of the record's genres; the
year is empty or string-equal to the record's year; the rating is empty
or string-equal to the record's rating. -/
theorem applyFilters_keeps_iff (d : MoviesData) (k : FilterCriteria) (m : Movie) :
    m ∈ applyFilters d k ↔
      m ∈ d.movies ∧
      (k.searchTerm = "" ∨ (strLower k.searchTerm).data <:+: (strLower m.title).data) ∧
      (k.genre = "" ∨ k.genre ∈ m.genres) ∧
      (k.year = "" ∨ m.year = k.year) ∧
      (k.rating = "" ∨ m.rating = k.rating) := by
  rw [applyFilters, List.mem_filter, moviePasses]
  simp only [Bool.and_eq_true, Bool.or_eq_true, beq_iff_eq, strIncludes,
    containsSub_infix_iff, List.elem_iff]
  tauto

/-- C3: the derived filter options depend on the catalog alone: two
renders with the same catalog and any two criteria and page numbers show
identical option sets, so applying criteria never narrows the options. -/
theorem filterOptions_independent_of_criteria (d : MoviesData)
    (k1 k2 : FilterCriteria) (p1 p2 : Nat) :
    (renderHome d k1 p1).filterOptions = (renderHome d k2 p2).filterOptions := rfl

/-- C5: the filtered list is a sublist of the catalog (every survivor
occurs in it, no record is duplicated beyond its catalog multiplicity,
and the original order is preserved), and filtering the A/B/C scenario
catalog by year 2000 returns exactly the titles A then C. -/
theorem applyFilters_sublist_and_scenario :
    (∀ (d : MoviesData) (k : FilterCriteria), (applyFilters d k).Sublist d.movies) ∧
    (∀ (d : MoviesData) (k : FilterCriteria) (m : Movie),
        (applyFilters d k).count m ≤ d.movies.count m) ∧
    (applyFilters scenarioCatalog yearCriteria).map Movie.title = ["A", "C"] := by
  refine ⟨fun d k => List.filter_sublist _, fun d k m => (List.filter_sublist _).count_le m, ?_⟩
  decide

/-- C6: all-empty criteria keep the catalog unchanged, element for
element in the same order. -/
theorem applyFilters_empty (d : MoviesData) :
    applyFilters d emptyCriteria = d.movies := by
  simp [applyFilters, moviePasses, emptyCriteria]

/-- C7: detail lookup returns a catalog record whose lowercased title
equals the lowercased looked-up title whenever one exists, and otherwise
the explicit "Movie not found" error state, never a default record. -/
theorem movieLookup_found_or_notFound (movies : List Movie) (t : String) :
    (∃ m, movieLookup movies t = Except.ok m ∧ m ∈ movies ∧ strLower m.title = strLower t) ∨
    (movieLookup movies t = Except.error "Movie not found" ∧
      ∀ m ∈ movies, strLower m.title ≠ strLower t) := by
  cases hfind : movies.find? (fun m => strLower m.title == strLower t) with
  | some m =>
    left
    refine ⟨m, ?_, List.mem_of_find?_eq_some hfind, ?_⟩
    · simp [movieLookup, hfind]
    · have h := List.find?_some hfind
      simpa using h
  | none =>
    right
    refine ⟨by simp [movieLookup, hfind], ?_⟩
    intro m hm
    have h := List.find?_eq_none.mp hfind m hm
    simpa using h

/-- The year comparator order is total. -/
theorem yearCompareLe_total (a b : String) :
    yearCompareLe a b = true ∨ yearCompareLe b a = true := by
  unfold yearCompareLe
  cases ha : jsParseInt a with
  | none => cases hb : jsParseInt b <;> simp
  | some x =>
    cases hb : jsParseInt b with
    | none => simp
    | some y => simpa using Int.le_total y x

/-- The year comparator order is transitive on parsing strings. -/
theorem yearCompareLe_trans_of_isSome {a b c : String}
    (ha : (jsParseInt a).isSome = true) (hb : (jsParseInt b).isSome = true)
    (hc : (jsParseInt c).isSome = true)
    (h1 : yearCompareLe a b = true) (h2 : yearCompareLe b c = true) :
    yearCompareLe a c = true := by
  obtain ⟨x, hx⟩ := Option.isSome_iff_exists.mp ha
  obtain ⟨y, hy⟩ := Option.isSome_iff_exists.mp hb
  obtain ⟨z, hz⟩ := Option.isSome_iff_exists.mp hc
  unfold yearCompareLe at h1 h2 ⊢
  rw [hx, hy] at h1
  rw [hy, hz] at h2
  rw [hx, hz]
  simp only [decide_eq_true_eq] at h1 h2 ⊢
  exact le_trans h2 h1

/-- The catalog for the witness of the derived-options claim. -/
def demoCatalog : MoviesData :=
  { total_movies := 3,
    movies := [{ title := "A", year := "1999", rating := "PG",
                 genres := ["Drama", "Action"], url := "", image_url := "", video_source := "" },
               { title := "B", year := "2005", rating := "R",
                 genres := ["Drama"], url := "", image_url := "", video_source := "" },
               { title := "C", year := "2001", rating := "PG-13",
                 genres := ["Comedy"], url := "", image_url := "", video_source := "" }] }

/-- C4: `deriveOptions` returns three duplicate-free lists whose members
are exactly the genres flattened across all records, the years, and the
ratings; genres and ratings are in strictly ascending lexicographic
order, and whenever every record's year parses as a number the years are
in descending numeric order. -/
theorem deriveOptions_spec (d : MoviesData) :
    (deriveOptions d).genres.Nodup ∧
    (deriveOptions d).years.Nodup ∧
    (deriveOptions d).ratings.Nodup ∧
    (∀ g, g ∈ (deriveOptions d).genres ↔ ∃ m ∈ d.movies, g ∈ m.genres) ∧
    (∀ y, y ∈ (deriveOptions d).years ↔ ∃ m ∈ d.movies, m.year = y) ∧
    (∀ r, r ∈ (deriveOptions d).ratings ↔ ∃ m ∈ d.movies, m.rating = r) ∧
    (deriveOptions d).genres.Pairwise (fun a b => List.Lex (· < ·) a.data b.data) ∧
    (deriveOptions d).ratings.Pairwise (fun a b => List.Lex (· < ·) a.data b.data) ∧
    ((∀ m ∈ d.movies, (jsParseInt m.year).isSome = true) →
      (deriveOptions d).years.Pairwise
        (fun a b => (jsParseInt b).getD 0 ≤ (jsParseInt a).getD 0)) := by
  have hlexStrict : ∀ l : List String,
      (jsSort lexLe l).Nodup →
      (jsSort lexLe l).Pairwise (fun a b => lexLe a b = true) →
      (jsSort lexLe l).Pairwise (fun a b => List.Lex (· < ·) a.data b.data) := by
    intro l hnd hsorted
    refine (hsorted.and hnd).imp ?_
    rintro a b ⟨hle, hne⟩
    rcases (lexLe_iff a b).mp hle with rfl | hlex
    · exact absurd rfl hne
    · exact hlex
  have hgnd : (deriveOptions d).genres.Nodup := by
    simp only [deriveOptions]
    exact ((jsSort_perm lexLe _).nodup_iff).mpr (nodup_dedupFirst _)
  have hynd : (deriveOptions d).years.Nodup := by
    simp only [deriveOptions]
    exact ((jsSort_perm yearCompareLe _).nodup_iff).mpr (nodup_dedupFirst _)
  have hrnd : (deriveOptions d).ratings.Nodup := by
    simp only [deriveOptions]
    exact ((jsSort_perm lexLe _).nodup_iff).mpr (nodup_dedupFirst _)
  refine ⟨hgnd, hynd, hrnd, ?_, ?_, ?_, ?_, ?_, ?_⟩
  · intro g
    simp [deriveOptions, mem_jsSort, mem_dedupFirst, List.mem_flatMap]
  · intro y
    simp [deriveOptions, mem_jsSort, mem_dedupFirst, List.mem_map]
  · intro r
    simp [deriveOptions, mem_jsSort, mem_dedupFirst, List.mem_map]
  · simp only [deriveOptions] at hgnd ⊢
    exact hlexStrict _ hgnd
      (pairwise_jsSort lexLe _ (fun a _ b _ => lexLe_total a b)
        (fun a _ b _ c _ => lexLe_trans a b c))
  · simp only [deriveOptions] at hrnd ⊢
    exact hlexStrict _ hrnd
      (pairwise_jsSort lexLe _ (fun a _ b _ => lexLe_total a b)
        (fun a _ b _ c _ => lexLe_trans a b c))
  · intro hnum
    simp only [deriveOptions]
    have hmemParse : ∀ z ∈ dedupFirst (d.movies.map Movie.year),
        (jsParseInt z).isSome = true := by
      intro z hz
      rw [mem_dedupFirst] at hz
      obtain ⟨m, hm, rfl⟩ := List.mem_map.mp hz
      exact hnum m hm
    have hsort := pairwise_jsSort yearCompareLe (dedupFirst (d.movies.map Movie.year))
      (fun a _ b _ => yearCompareLe_total a b)
      (fun a ha b hb c hc h1 h2 =>
        yearCompareLe_trans_of_isSome (hmemParse a ha) (hmemParse b hb) (hmemParse c hc) h1 h2)
    refine List.Pairwise.imp_of_mem (fun {a b} ha hb hab => ?_) hsort
    have hpa := hmemParse a (mem_jsSort.mp ha)
    have hpb := hmemParse b (mem_jsSort.mp hb)
    obtain ⟨x, hx⟩ := Option.isSome_iff_exists.mp hpa
    obtain ⟨y, hy⟩ := Option.isSome_iff_exists.mp hpb
    unfold yearCompareLe at hab
    rw [hx, hy] at hab
    simp only [decide_eq_true_eq] at hab
    rw [hx, hy]
    simpa using hab

/-- Witness for C4: on a concrete catalog whose years all parse, the
derived year options are numerically descending. -/
theorem deriveOptions_spec_witness :
    (deriveOptions demoCatalog).years.Pairwise
      (fun a b => (jsParseInt b).getD 0 ≤ (jsParseInt a).getD 0) :=
  (deriveOptions_spec demoCatalog).2.2.2.2.2.2.2.2 (by decide)

/-- Peeling one page off a non-empty list: the ceiling page count of a
list of length `m + 1` is one more than that of the list with its first
`P` elements removed. -/
theorem totalPagesP_succ (P m : Nat) (hP : 0 < P) :
    totalPagesP P (m + 1) = totalPagesP P (m + 1 - P) + 1 := by
  unfold totalPagesP
  rcases le_or_lt (m + 1) P with h | h
  · have h1 : m + 1 - P = 0 := by omega
    rw [h1]
    have h2 : (0 + (P - 1)) / P = 0 := Nat.div_eq_of_lt (by omega)
    rw [h2]
    have h3 : m + 1 + (P - 1) = m + P := by omega
    rw [h3, Nat.add_div_right _ hP]
    have h4 : m / P = 0 := Nat.div_eq_of_lt (by omega)
    rw [h4]
  · obtain ⟨q, rfl⟩ : ∃ q, m = q + P := ⟨m - P, by omega⟩
    have h1 : q + P + 1 - P = q + 1 := by omega
    rw [h1]
    have h2 : q + P + 1 + (P - 1) = (q + P) + P := by omega
    have h3 : q + 1 + (P - 1) = q + P := by omega
    rw [h2, h3]
    exact Nat.add_div_right _ hP

/-- Splitting a list into `P`-sized chunks and flattening them restores
the list, for any positive chunk size. -/
theorem flatten_chunks (P : Nat) (hP : 0 < P) :
    ∀ (n : Nat) (l : List Movie), l.length ≤ n →
      ((List.range (totalPagesP P l.length)).map (fun i => (l.drop (i * P)).take P)).flatten
        = l := by
  intro n
  induction n with
  | zero =>
    intro l hl
    have hnil : l = [] := List.eq_nil_of_length_eq_zero (Nat.le_zero.mp hl)
    subst hnil
    have h0 : totalPagesP P 0 = 0 := by
      unfold totalPagesP
      exact Nat.div_eq_of_lt (by omega)
    simp [h0]
  | succ n ih =>
    intro l hl
    cases l with
    | nil =>
      have h0 : totalPagesP P 0 = 0 := by
        unfold totalPagesP
        exact Nat.div_eq_of_lt (by omega)
      simp [h0]
    | cons x xs =>
      have hlxs : xs.length + 1 ≤ n + 1 := by simpa using hl
      have htp : totalPagesP P (x :: xs).length
          = totalPagesP P ((x :: xs).drop P).length + 1 := by
        have hdl : ((x :: xs).drop P).length = xs.length + 1 - P := by simp
        have hcl : (x :: xs).length = xs.length + 1 := by simp
        rw [hdl, hcl]
        exact totalPagesP_succ P xs.length hP
      rw [htp, List.range_succ_eq_map, List.map_cons, List.flatten_cons, List.map_map]
      have hzero : ((x :: xs).drop (0 * P)).take P = (x :: xs).take P := by simp
      have hmap : ((List.range (totalPagesP P ((x :: xs).drop P).length)).map
            ((fun i => ((x :: xs).drop (i * P)).take P) ∘ Nat.succ))
          = ((List.range (totalPagesP P ((x :: xs).drop P).length)).map
            (fun i => (((x :: xs).drop P).drop (i * P)).take P)) := by
        refine List.map_congr_left ?_
        intro i _
        simp only [Function.comp_apply]
        have hmul : Nat.succ i * P = P + i * P := by
          rw [Nat.succ_mul, Nat.add_comm]
        rw [hmul, ← List.drop_drop]
      rw [hzero, hmap, ih ((x :: xs).drop P)
        (by simp only [List.length_drop, List.length_cons]; omega)]
      exact List.take_append_drop P (x :: xs)

/-- C2: for a positive page size `P` the slices for pages `1..ceil(L/P)`
partition the filtered list: they concatenate back to the list, their
lengths sum to `L`, each slice is exactly the clipped half-open index
range; and at the program's page size 20 a 45-element list has 3 pages,
the third holding exactly the 5 elements at indices 40 to 44. -/
theorem pagination_partition (P : Nat) (hP : 0 < P) (l : List Movie) :
    (totalPagesP P l.length = l.length ⌈/⌉ P) ∧
    (((List.range (totalPagesP P l.length)).map (fun i => pageSliceP P l (i + 1))).flatten
        = l) ∧
    (((List.range (totalPagesP P l.length)).map
        (fun i => (pageSliceP P l (i + 1)).length)).sum = l.length) ∧
    (∀ p j, (pageSliceP P l p)[j]? = if j < P then l[(p - 1) * P + j]? else none) ∧
    (l.length = 45 →
      totalPagesP 20 l.length = 3 ∧ (pageSliceP 20 l 3).length = 5 ∧
      ∀ j, (pageSliceP 20 l 3)[j]? = if j < 5 then l[40 + j]? else none) := by
  have hslice : ∀ (Q : Nat) (i : Nat), pageSliceP Q l (i + 1) = (l.drop (i * Q)).take Q := by
    intro Q i
    simp [pageSliceP]
  have hflat : ((List.range (totalPagesP P l.length)).map
      (fun i => pageSliceP P l (i + 1))).flatten = l := by
    rw [List.map_congr_left (fun i _ => hslice P i)]
    exact flatten_chunks P hP l.length l (Nat.le_refl _)
  have hget : ∀ (Q : Nat) (p j : Nat),
      (pageSliceP Q l p)[j]? = if j < Q then l[(p - 1) * Q + j]? else none := by
    intro Q p j
    rw [pageSliceP, List.getElem?_take, List.getElem?_drop]
  have hceil : totalPagesP P l.length = l.length ⌈/⌉ P := by
    rw [Nat.ceilDiv_eq_add_pred_div]
    unfold totalPagesP
    congr 1
    omega
  refine ⟨hceil, hflat, ?_, hget P, ?_⟩
  · have h1 : ((List.range (totalPagesP P l.length)).map
        (fun i => (pageSliceP P l (i + 1)).length)).sum
        = (((List.range (totalPagesP P l.length)).map
            (fun i => pageSliceP P l (i + 1))).map List.length).sum := by
      rw [List.map_map]
      rfl
    rw [h1, ← List.length_flatten, hflat]
  · intro h45
    refine ⟨by rw [h45]; decide, ?_, ?_⟩
    · simp only [pageSliceP, List.length_take, List.length_drop, h45]
      omega
    · intro j
      rw [hget 20 3 j]
      by_cases hj : j < 5
      · rw [if_pos (by omega : j < 20), if_pos hj]
      · rw [if_neg hj]
        by_cases hj2 : j < 20
        · rw [if_pos hj2]
          exact List.getElem?_eq_none (by omega)
        · rw [if_neg hj2]

/-- A concrete 45-movie list for the pagination witness. -/
def sampleMovies45 : List Movie :=
  (List.range 45).map (fun i =>
    { title := toString i, year := "2000", rating := "PG", genres := [],
      url := "", image_url := "", video_source := "" })

/-- Witness for C2: the page slices of a concrete 45-element list at the
program's page size 20 concatenate back to the list. -/
theorem pagination_partition_witness :
    ((List.range (totalPagesP 20 sampleMovies45.length)).map
        (fun i => pageSliceP 20 sampleMovies45 (i + 1))).flatten = sampleMovies45 :=
  (pagination_partition 20 (by decide) sampleMovies45).2.1

/-- C8: every transition that changes one of the four filter fields lands
on page 1: a state reached immediately after a criteria change never has
a page number other than 1. -/
theorem step_filter_change_resets_page (s : BrowseState) (e : HomeEvent)
    (h : (step s e).criteria ≠ s.criteria) : (step s e).currentPage = 1 := by
  cases e with
  | setSearch v =>
    by_cases hv : v = s.criteria.searchTerm
    · simp [step, hv] at h
    · simp [step, hv]
  | setGenre v =>
    by_cases hv : v = s.criteria.genre
    · simp [step, hv] at h
    · simp [step, hv]
  | setYear v =>
    by_cases hv : v = s.criteria.year
    · simp [step, hv] at h
    · simp [step, hv]
  | setRating v =>
    by_cases hv : v = s.criteria.rating
    · simp [step, hv] at h
    · simp [step, hv]
  | setPage p => simp [step] at h
  | clearFilters => simp [step]

/-- Witness for C8: changing the year filter from page 5 changes the
criteria and lands on page 1. -/
theorem step_filter_change_resets_page_witness :
    (step ⟨⟨"term", "", "", ""⟩, 5⟩ (HomeEvent.setYear "1999")).criteria
        ≠ (⟨⟨"term", "", "", ""⟩, 5⟩ : BrowseState).criteria ∧
    (step ⟨⟨"term", "", "", ""⟩, 5⟩ (HomeEvent.setYear "1999")).currentPage = 1 :=
  ⟨by decide, step_filter_change_resets_page _ _ (by decide)⟩

/-- C9: pagination is total with no clamping: for any page number at
least 1, a start index at or past the end yields the empty slice (in
particular the empty list has zero pages and an empty slice), and a
slice never exceeds the page size. -/
theorem pagination_out_of_range_empty (l : List Movie) (p : Nat) (_hp : 1 ≤ p) :
    (l.length ≤ (p - 1) * MOVIES_PER_PAGE → currentMovies l p = []) ∧
    (l = [] → totalPagesOf l = 0 ∧ currentMovies l p = []) ∧
    (currentMovies l p).length ≤ MOVIES_PER_PAGE := by
  refine ⟨?_, ?_, ?_⟩
  · intro hl
    simp [currentMovies, pageSliceP, List.drop_eq_nil_of_le hl]
  · rintro rfl
    refine ⟨by decide, ?_⟩
    simp [currentMovies, pageSliceP]
  · simp only [currentMovies, pageSliceP, List.length_take]
    omega

/-- Witness for C9: page 2 of a one-movie list is empty. -/
theorem pagination_out_of_range_empty_witness :
    currentMovies [mkMovie "A" "2000" "PG" []] 2 = [] :=
  (pagination_out_of_range_empty _ 2 (by decide)).1 (by decide)

/-- C10: when several records match the looked-up title under
case-insensitive comparison, detail lookup returns the first match in
catalog order. -/
theorem movieLookup_first_match (movies : List Movie) (t : String) :
    ∀ (i : Nat) (m : Movie),
      movies[i]? = some m →
      strLower m.title = strLower t →
      (∀ j, j < i → ∀ m2, movies[j]? = some m2 → strLower m2.title ≠ strLower t) →
      movieLookup movies t = Except.ok m := by
  induction movies with
  | nil =>
    intro i m hm _ _
    simp at hm
  | cons hd tl ih =>
    intro i m hm hmatch hfirst
    by_cases hp : strLower hd.title = strLower t
    · have hfind : (hd :: tl).find? (fun m => strLower m.title == strLower t) = some hd := by
        rw [List.find?_cons_of_pos]
        simpa using hp
      cases i with
      | zero =>
        simp only [List.getElem?_cons_zero, Option.some.injEq] at hm
        subst hm
        simp [movieLookup, hfind]
      | succ j =>
        exact absurd hp (hfirst 0 (Nat.succ_pos j) hd (by simp))
    · cases i with
      | zero =>
        simp only [List.getElem?_cons_zero, Option.some.injEq] at hm
        subst hm
        exact absurd hmatch hp
      | succ j =>
        have hm2 : tl[j]? = some m := by simpa using hm
        have hfirst2 : ∀ j2, j2 < j → ∀ m2, tl[j2]? = some m2 →
            strLower m2.title ≠ strLower t := by
          intro j2 hj2 m2 hmm
          exact hfirst (j2 + 1) (Nat.succ_lt_succ hj2) m2 (by simpa using hmm)
        have htl := ih j m hm2 hmatch hfirst2
        rw [movieLookup] at htl ⊢
        rw [List.find?_cons_of_neg]
        · exact htl
        · simpa using hp

/-- A catalog slice with two titles equal up to case, for the witness of
the first-match claim. -/
def dupTitleMovies : List Movie :=
  [mkMovie "Alpha" "2000" "PG" [],
   mkMovie "ALPHA" "2001" "R" [],
   mkMovie "Beta" "2002" "PG" []]

/-- Witness for C10: with two titles equal up to case, the lookup returns
the earlier record. -/
theorem movieLookup_first_match_witness :
    movieLookup dupTitleMovies "alpha" = Except.ok (mkMovie "Alpha" "2000" "PG" []) :=
  movieLookup_first_match dupTitleMovies "alpha" 0 _
    (by decide) (by decide) (fun j hj m2 _ => absurd hj (Nat.not_lt_zero j))
